import Mathlib

/-!
# Workflow execution engine — a shallow embedding

This file embeds the workflow execution engine of the repository
(`src/lib/execution/engine.ts`, with the data model of `src/lib/types.ts`
and the block registry of `src/lib/blocks/registry.ts`) and proves or
refutes the specification's claims about it.

Modelling conventions:
* JavaScript objects are association lists (`List (String × _)`); property
  assignment is `setAssoc` (replace in place, else append), lookup is
  `getAssoc` (first match).
* Wall-clock timestamps (`Date.now()`, ISO strings) are a logical `Nat`
  clock; log ids are counters. Only "the field is set" and relative order
  matter to any claim.
* The engine's `while` loop is embedded with explicit fuel; the engine
  calls it with provably sufficient fuel (`initFuel`), so the embedding
  computes the same result as the unbounded loop.
* A node behavior (`blockConfig.run`) is a function from the context the
  engine builds to the list of `setNodeOutput` writes it performs in order
  plus its outcome (a returned value, or a thrown error message).
* `stop()` / cancellation is modelled by `abortAt : Option Nat`: the
  iteration count at which `abortController.signal.aborted` becomes true.
* Observer callbacks (`onLog`, `onNodeUpdate`) mutate nothing and are
  dropped.
-/

namespace WorkflowAI

/-- JSON-like runtime values flowing between nodes (TS `unknown`). -/
inductive JValue where
  | vNull : JValue
  | vBool : Bool → JValue
  | vNum : Int → JValue
  | vStr : String → JValue
  | vArr : List JValue → JValue
  | vObj : List (String × JValue) → JValue

/-- TS test `result && typeof result === 'object' && !Array.isArray(result)`:
true exactly for a (truthy) plain object; `null` is falsy, arrays are
excluded, primitives have other `typeof`. -/
def JValue.isRecordLike : JValue → Bool
  | .vObj _ => true
  | _ => false

/-- The key→value entries of a record value (`[]` on anything else; only
read behind an `isRecordLike` test, as in the TS). -/
def JValue.objFields : JValue → List (String × JValue)
  | .vObj fields => fields
  | _ => []

/-- JS object property lookup (`m[k]`), `none` for an absent key. -/
def getAssoc {α : Type} (m : List (String × α)) (k : String) : Option α :=
  (m.find? (fun p => p.1 = k)).map (·.2)

/-- JS object property assignment (`m[k] = v`): overwrite in place if the
key exists, else append. -/
def setAssoc {α : Type} (m : List (String × α)) (k : String) (v : α) :
    List (String × α) :=
  if m.any (fun p => p.1 = k) then
    m.map (fun p => if p.1 = k then (k, v) else p)
  else m ++ [(k, v)]

/-- Apply a list of assignments in order (`for kv of ws: m[kv.1] = kv.2`). -/
def applyWrites {α : Type} (m : List (String × α)) (ws : List (String × α)) :
    List (String × α) :=
  ws.foldl (fun acc kv => setAssoc acc kv.1 kv.2) m

/-- JS object spread `{...a, ...b}`: `b`'s entries assigned over `a`. -/
def jsMerge {α : Type} (a b : List (String × α)) : List (String × α) :=
  applyWrites a b

theorem getAssoc_nil {α : Type} (k : String) : getAssoc ([] : List (String × α)) k = none := rfl

theorem getAssoc_cons {α : Type} (p : String × α) (t : List (String × α)) (k : String) :
    getAssoc (p :: t) k = if p.1 = k then some p.2 else getAssoc t k := by
  by_cases hp : p.1 = k
  · simp [getAssoc, List.find?, hp]
  · simp [getAssoc, List.find?, decide_eq_false hp, hp]

theorem getAssoc_overwrite_ne {α : Type} (m : List (String × α)) (k k' : String) (v : α)
    (h : k' ≠ k) :
    getAssoc (m.map (fun p => if p.1 = k then (k, v) else p)) k' = getAssoc m k' := by
  induction m with
  | nil => rfl
  | cons p t ih =>
    by_cases hp : p.1 = k
    · have hkk' : ¬ ((k, v).1 = k') := fun hc => h hc.symm
      have hpk' : ¬ (p.1 = k') := by rw [hp]; exact fun hc => h hc.symm
      simp only [List.map_cons, hp, if_true, getAssoc_cons, hkk', if_false, hpk']
      exact ih
    · simp only [List.map_cons, hp, if_false, getAssoc_cons]
      by_cases hp' : p.1 = k'
      · simp [hp']
      · simp only [hp', if_false]; exact ih

theorem getAssoc_overwrite_eq {α : Type} (m : List (String × α)) (k : String) (v : α)
    (hmem : m.any (fun p => p.1 = k) = true) :
    getAssoc (m.map (fun p => if p.1 = k then (k, v) else p)) k = some v := by
  induction m with
  | nil => exact absurd hmem (by simp)
  | cons p t ih =>
    by_cases hp : p.1 = k
    · simp [List.map_cons, hp, getAssoc_cons]
    · simp only [List.any_cons, Bool.or_eq_true, decide_eq_true_eq, hp, false_or] at hmem
      rw [List.map_cons, if_neg hp, getAssoc_cons, if_neg hp]
      exact ih hmem

theorem getAssoc_append_ne {α : Type} (m : List (String × α)) (k k' : String) (v : α)
    (h : k' ≠ k) :
    getAssoc (m ++ [(k, v)]) k' = getAssoc m k' := by
  induction m with
  | nil =>
    have : ¬ ((k, v).1 = k') := fun hc => h hc.symm
    simp [getAssoc_cons, this, getAssoc_nil]
  | cons p t ih =>
    by_cases hp : p.1 = k'
    · simp [List.cons_append, getAssoc_cons, hp]
    · simp only [List.cons_append, getAssoc_cons, hp, if_false]
      exact ih

theorem getAssoc_append_eq {α : Type} (m : List (String × α)) (k : String) (v : α)
    (hmem : ¬ (m.any (fun p => p.1 = k) = true)) :
    getAssoc (m ++ [(k, v)]) k = some v := by
  induction m with
  | nil => simp [getAssoc_cons]
  | cons p t ih =>
    simp only [List.any_cons, Bool.or_eq_true, decide_eq_true_eq, not_or] at hmem
    simp only [List.cons_append, getAssoc_cons, hmem.1, if_false]
    exact ih (by simpa using hmem.2)

theorem getAssoc_setAssoc {α : Type} (m : List (String × α)) (k k' : String) (v : α) :
    getAssoc (setAssoc m k v) k' = if k' = k then some v else getAssoc m k' := by
  unfold setAssoc
  by_cases hmem : m.any (fun p => p.1 = k) = true
  · simp only [hmem, if_true]
    by_cases hk : k' = k
    · subst hk; simp [getAssoc_overwrite_eq m k' v hmem]
    · simp [hk, getAssoc_overwrite_ne m k k' v hk]
  · simp only [hmem, if_false]
    by_cases hk : k' = k
    · subst hk; simp [getAssoc_append_eq m k' v hmem]
    · simp [hk, getAssoc_append_ne m k k' v hk]

theorem getAssoc_eq_none {α : Type} (m : List (String × α)) (k : String)
    (h : ∀ p ∈ m, p.1 ≠ k) : getAssoc m k = none := by
  induction m with
  | nil => rfl
  | cons p t ih =>
    have hp := h p (List.mem_cons_self p t)
    simp only [getAssoc, List.find?, decide_eq_false hp]
    exact ih (fun q hq => h q (List.mem_cons_of_mem p hq))

/-- Lookup through a spread merge, when the overriding record has distinct
keys: the right side wins on collision, the left fills the rest. -/
theorem getAssoc_jsMerge {α : Type} (a b : List (String × α)) (k : String)
    (hnd : (b.map Prod.fst).Nodup) :
    getAssoc (jsMerge a b) k =
      (getAssoc b k).orElse (fun _ => getAssoc a k) := by
  induction b generalizing a with
  | nil => simp [jsMerge, applyWrites, getAssoc, List.find?]
  | cons p t ih =>
    have hnd' : (t.map Prod.fst).Nodup := (List.nodup_cons.mp hnd).2
    have hnotmem : p.1 ∉ t.map Prod.fst := (List.nodup_cons.mp hnd).1
    have step : jsMerge a (p :: t) = jsMerge (setAssoc a p.1 p.2) t := rfl
    rw [step, ih _ hnd']
    by_cases hk : p.1 = k
    · subst hk
      have hb : getAssoc (p :: t) p.1 = some p.2 := by
        simp [getAssoc, List.find?]
      have ht : getAssoc t p.1 = none := by
        apply getAssoc_eq_none
        intro q hq hqk
        exact hnotmem (hqk ▸ List.mem_map_of_mem Prod.fst hq)
      rw [hb, ht, getAssoc_setAssoc]
      simp
    · have hb : getAssoc (p :: t) k = getAssoc t k := by
        simp only [getAssoc, List.find?, decide_eq_false hk]
      rw [hb, getAssoc_setAssoc]
      have hkp : ¬ (k = p.1) := fun h => hk h.symm
      simp only [hkp, if_false]

/-! ## Data model (`src/lib/types.ts`)

Fields the engine never reads (canvas `position`, edge handles/labels,
workflow timestamps) are omitted; they carry no engine-visible behavior. -/

/-- `WorkflowNode` of `types.ts`: `id`, `type`, configuration `data`. -/
structure WorkflowNode where
  id : String
  type : String
  data : List (String × JValue)

/-- `WorkflowEdge` of `types.ts`: `id`, `source`, `target`. -/
structure WorkflowEdge where
  id : String
  source : String
  target : String
  deriving DecidableEq

/-- `Workflow` of `types.ts` (engine-visible fields). -/
structure Workflow where
  id : String
  name : String
  nodes : List WorkflowNode
  edges : List WorkflowEdge
  starterId : String

/-- `ExecutionStatus` of `types.ts`. -/
inductive ExecutionStatus where
  | idle | running | success | error | cancelled
  deriving DecidableEq

/-- `'info' | 'warn' | 'error'` log levels. -/
inductive LogLevel where
  | info | warn | error
  deriving DecidableEq

/-- `ExecutionLog` of `types.ts`; `id`/`timestamp` are logical counters. -/
structure ExecutionLog where
  id : Nat
  nodeId : Option String
  message : String
  level : LogLevel
  timestamp : Nat
  deriving DecidableEq

/-- `NodeExecution` of `types.ts`. -/
structure NodeExecution where
  nodeId : String
  status : ExecutionStatus
  startTime : Option Nat := none
  endTime : Option Nat := none
  duration : Option Nat := none
  outputs : Option (List (String × JValue)) := none
  error : Option String := none

/-- `WorkflowExecution` of `types.ts`; `nodeExecutions` is the
`nodeId → NodeExecution` object as an association list. -/
structure WorkflowExecution where
  id : String
  workflowId : String
  status : ExecutionStatus
  startTime : Nat
  endTime : Option Nat := none
  duration : Option Nat := none
  logs : List ExecutionLog
  nodeExecutions : List (String × NodeExecution)

/-- The run's `nodeOutputs` map (`Record<string, Record<string, unknown>>`). -/
abbrev OutputsMap := List (String × List (String × JValue))

/-! ## Node behaviors (`blockConfig.run` and the registry) -/

/-- What the engine hands to `blockConfig.run`: the fields of `RunContext`
a behavior can read. `abortSignal` is the aborted state of
`abortController.signal` as observable during this node's execution — a
behavior that honors cancellation (as the agent block does, passing
`ctx.abortSignal` into its provider fetch and rethrowing the failure)
reacts to it; `fetch` and `log` mutate nothing the claims mention, and the
output accessors are modelled by the behavior's observable interaction
below. -/
structure BehaviorCtx where
  workflowId : String
  nodeId : String
  inputs : List (String × JValue)
  env : List (String × String)
  registryView : OutputsMap
  abortSignal : Bool

/-- `getNodeOutput(nodeId, key)` as seen by a behavior:
`nodeOutputs[nodeId]?.[key]`. -/
def getNodeOutputFn (outs : OutputsMap) (nodeId key : String) : Option JValue :=
  (getAssoc outs nodeId).bind (fun slot => getAssoc slot key)

/-- A block behavior: from the context, the ordered list of
`setNodeOutput(key, value)` calls it performs, and its outcome — a returned
value (`Except.ok`) or a thrown error message (`Except.error`). -/
def Behavior : Type :=
  BehaviorCtx → List (String × JValue) × Except String JValue

/-- `getBlockConfig` (`src/lib/blocks/registry.ts`) composed with the
`!blockConfig || !blockConfig.run` check: `none` when the type is missing
from the registry or has no `run`. -/
def Registry : Type := String → Option Behavior

/-! ## The engine (`src/lib/execution/engine.ts`) -/

/-- `ExecutionEngine.log`: append an `ExecutionLog`; ids and timestamps
are the position in the log list (in TS, `Date.now()`-derived). -/
def appendLog (exec : WorkflowExecution) (level : LogLevel) (message : String)
    (nodeId : Option String) : WorkflowExecution :=
  { exec with
    logs := exec.logs ++
      [{ id := exec.logs.length
         nodeId := nodeId
         message := message
         level := level
         timestamp := exec.logs.length }] }

/-- The `RunContext` the engine builds for a node, restricted to
behavior-readable data (engine.ts lines 121–146); `sig` is the run
signal's aborted state the behavior can observe while it runs. -/
def mkCtx (wf : Workflow) (node : WorkflowNode) (env : List (String × String))
    (outs : OutputsMap) (sig : Bool) : BehaviorCtx :=
  { workflowId := wf.id
    nodeId := node.id
    inputs := node.data
    env := env
    registryView := outs
    abortSignal := sig }

/-- Result of `executeNode`: updated record, updated `nodeOutputs`, clock,
and `err = some m` when the node threw (the TS method rethrows). -/
structure NodeRes where
  exec : WorkflowExecution
  outs : OutputsMap
  clock : Nat
  err : Option String

/-- The `catch` block of `executeNode` (engine.ts lines 176–185): mark the
node record `error`, log `🚨` tagged with this node id, rethrow. -/
def nodeFailure (node : WorkflowNode) (exec : WorkflowExecution) (outs : OutputsMap)
    (clock : Nat) (ne0 : NodeExecution) (m : String) : NodeRes :=
  let ne1 : NodeExecution :=
    { ne0 with
      status := .error
      error := some m
      endTime := some (clock + 1)
      duration := some 1 }
  let exec3 := { exec with nodeExecutions := setAssoc exec.nodeExecutions node.id ne1 }
  let exec4 := appendLog exec3 .error (s!"🚨 Node failed: {m}") (some node.id)
  { exec := exec4, outs := outs, clock := clock + 2, err := some m }

/-- `ExecutionEngine.executeNode` (engine.ts lines 94–188). -/
def executeNode (registry : Registry) (wf : Workflow) (node : WorkflowNode)
    (exec : WorkflowExecution) (env : List (String × String)) (outs : OutputsMap)
    (sig : Bool) (clock : Nat) : NodeRes :=
  let ne0 : NodeExecution :=
    { nodeId := node.id, status := .running, startTime := some clock }
  let exec1 := { exec with nodeExecutions := setAssoc exec.nodeExecutions node.id ne0 }
  let exec2 :=
    if node.type = "starter" then exec1
    else appendLog exec1 .info (s!"⚡ {node.type}: {node.id}") (some node.id)
  match registry node.type with
  | none =>
    nodeFailure node exec2 outs clock ne0
      (s!"Block type {node.type} not found or not executable")
  | some behavior =>
    let res := behavior (mkCtx wf node env outs sig)
    let slot0 := (getAssoc outs node.id).getD []
    let slot1 := applyWrites slot0 res.1
    let outs1 := if res.1.isEmpty then outs else setAssoc outs node.id slot1
    match res.2 with
    | .error m => nodeFailure node exec2 outs1 clock ne0 m
    | .ok v =>
      let slotCur := (getAssoc outs1 node.id).getD []
      let returnOutputs :=
        if v.isRecordLike then v.objFields else [("value", v)]
      let ne1 : NodeExecution :=
        { ne0 with
          status := .success
          outputs := some (jsMerge slotCur returnOutputs)
          endTime := some (clock + 1)
          duration := some 1 }
      let outs2 :=
        if v.isRecordLike then setAssoc outs1 node.id (jsMerge slotCur v.objFields)
        else outs1
      let exec3 := { exec2 with nodeExecutions := setAssoc exec2.nodeExecutions node.id ne1 }
      let exec4 :=
        if node.type = "starter" then exec3
        else appendLog exec3 .info (s!"✅ {node.type} completed") (some node.id)
      { exec := exec4, outs := outs2, clock := clock + 2, err := none }

/-- `ExecutionEngine.validateWorkflow` (engine.ts lines 190–201): the only
checks performed are "has nodes" and "starter exists"; `some` carries the
thrown error's message. -/
def validateWorkflow (wf : Workflow) : Option String :=
  if wf.nodes.isEmpty then some "Workflow has no nodes"
  else if (wf.nodes.find? (fun n => n.id = wf.starterId)).isNone then
    some "Start node not found"
  else none

/-- `ExecutionEngine.getConnectedNodes` (engine.ts lines 203–211). -/
def getConnectedNodes (wf : Workflow) (fromNodeId : String) : List WorkflowNode :=
  let connectedNodeIds := (wf.edges.filter (fun e => e.source = fromNodeId)).map (·.target)
  wf.nodes.filter (fun n => connectedNodeIds.contains n.id)

/-- Has `abortController.signal.aborted` become true by iteration `iter`?
(`stop()` arriving after `abortAt` loop iterations.) -/
def abortHit : Option Nat → Nat → Bool
  | none, _ => false
  | some a, iter => a ≤ iter

/-- Result of the BFS loop of `executeWorkflow`, plus ghost observables:
`trace` is the list of nodes whose behavior ran to success in order,
`err` the failing node and message when a node threw, `aborted` whether
the loop broke on the abort signal, `ranOut` whether the fuel was
exhausted (never, at the fuel the engine supplies). -/
structure LoopRes where
  exec : WorkflowExecution
  outs : OutputsMap
  clock : Nat
  trace : List String
  err : Option (String × String)
  aborted : Bool
  ranOut : Bool

/-- The `while (queue.length > 0)` loop of `executeWorkflow`
(engine.ts lines 48–75), fuel-indexed. -/
def runLoop (registry : Registry) (wf : Workflow) (env : List (String × String))
    (abortAt : Option Nat) :
    Nat → Nat → List String → List String → WorkflowExecution → OutputsMap →
    Nat → List String → LoopRes
  | 0, _iter, _visited, _queue, exec, outs, clock, trace =>
    { exec := exec, outs := outs, clock := clock, trace := trace
      err := none, aborted := false, ranOut := true }
  | _fuel + 1, _iter, _visited, [], exec, outs, clock, trace =>
    { exec := exec, outs := outs, clock := clock, trace := trace
      err := none, aborted := false, ranOut := false }
  | fuel + 1, iter, visited, nodeId :: rest, exec, outs, clock, trace =>
    if abortHit abortAt iter then
      { exec := { exec with status := .cancelled }, outs := outs, clock := clock
        trace := trace, err := none, aborted := true, ranOut := false }
    else if nodeId ∈ visited then
      runLoop registry wf env abortAt fuel (iter + 1) visited rest exec outs clock trace
    else
      match wf.nodes.find? (fun n => n.id = nodeId) with
      | none =>
        runLoop registry wf env abortAt fuel (iter + 1) (nodeId :: visited) rest
          exec outs clock trace
      | some node =>
        let r := executeNode registry wf node exec env outs (abortHit abortAt (iter + 1)) clock
        match r.err with
        | some m =>
          let exec' := { r.exec with status := .error }
          let exec'' := appendLog exec' .error (s!"❌ Node \x22{node.id}\x22 failed: {m}") none
          { exec := exec'', outs := r.outs, clock := r.clock, trace := trace
            err := some (node.id, m), aborted := false, ranOut := false }
        | none =>
          let next := getConnectedNodes wf nodeId
          let pushes := ((next.filter (fun n => ¬ (n.id ∈ (nodeId :: visited)))).map (·.id))
          runLoop registry wf env abortAt fuel (iter + 1) (nodeId :: visited)
            (rest ++ pushes) r.exec r.outs r.clock (trace ++ [node.id])

/-- Out-degree weight of one node for the fuel bound: how many nodes the
loop can push after executing it. -/
def pushWeight (wf : Workflow) (nodeId : String) : Nat :=
  (getConnectedNodes wf nodeId).length

/-- Total push weight of the not-yet-visited nodes. -/
def sumW (wf : Workflow) (visited : List String) : Nat :=
  ((wf.nodes.filter (fun n => ¬ (n.id ∈ visited))).map (fun n => pushWeight wf n.id)).sum

/-- Fuel the engine supplies to the loop; proved sufficient below, so the
fuel-indexed loop computes what the unbounded TS `while` computes. -/
def initFuel (wf : Workflow) : Nat := 2 + sumW wf []

/-- Result of a whole run: the final record (the value the engine's promise
resolves to), plus the ghost observables of the loop. -/
structure RunRes where
  exec : WorkflowExecution
  outs : OutputsMap
  trace : List String
  err : Option (String × String)
  aborted : Bool
  ranOut : Bool

/-- The tail of `executeWorkflow`: set `endTime`/`duration` and return
(engine.ts lines 88–91). -/
def finalizeRun (exec : WorkflowExecution) (outs : OutputsMap) (trace : List String)
    (err : Option (String × String)) (aborted ranOut : Bool) (clock : Nat) : RunRes :=
  { exec := { exec with endTime := some clock, duration := some (clock - exec.startTime) }
    outs := outs, trace := trace, err := err, aborted := aborted, ranOut := ranOut }

/-- The freshly created execution record (engine.ts lines 20–29), with the
`🚀` start log already appended. -/
def startRecord (wf : Workflow) : WorkflowExecution :=
  appendLog
    { id := "exec-0", workflowId := wf.id, status := .running, startTime := 0
      logs := [], nodeExecutions := [] }
    .info (s!"🚀 Starting workflow: {wf.name}") none

/-- `ExecutionEngine.executeWorkflow` (engine.ts lines 17–92).
`abortAt` is the loop iteration by which `stop()`'s abort becomes
observable (`none`: never). Every failure inside the `try` is routed to the
`catch`, which stamps the record `error` and logs `💥`; the function always
returns the record. -/
def executeWorkflow (registry : Registry) (wf : Workflow) (env : List (String × String))
    (abortAt : Option Nat) : RunRes :=
  let exec1 := startRecord wf
  match validateWorkflow wf with
  | some m =>
    finalizeRun (appendLog { exec1 with status := .error } .error
      (s!"💥 Workflow failed: {m}") none) [] [] none false false 1
  | none =>
    match wf.nodes.find? (fun n => n.id = wf.starterId) with
    | none =>
      finalizeRun (appendLog { exec1 with status := .error } .error
        "💥 Workflow failed: Start node not found" none) [] [] none false false 1
    | some startNode =>
      let r := runLoop registry wf env abortAt (initFuel wf) 0 [] [startNode.id]
        exec1 [] 1 []
      match r.err with
      | some em =>
        finalizeRun (appendLog { r.exec with status := .error } .error
          (s!"💥 Workflow failed: {em.2}") none) r.outs r.trace (some em)
          r.aborted r.ranOut r.clock
      | none =>
        let exec2 :=
          if r.exec.status = .cancelled then r.exec
          else appendLog { r.exec with status := .success } .info
            "✅ Workflow completed" none
        finalizeRun exec2 r.outs r.trace none r.aborted r.ranOut r.clock

/-! ## Facts about `executeNode` -/

theorem appendLog_nodeExecutions (e : WorkflowExecution) (lv : LogLevel) (m : String)
    (n : Option String) : (appendLog e lv m n).nodeExecutions = e.nodeExecutions := rfl

theorem appendLog_status (e : WorkflowExecution) (lv : LogLevel) (m : String)
    (n : Option String) : (appendLog e lv m n).status = e.status := rfl

theorem mem_appendLog {l : ExecutionLog} {e : WorkflowExecution} (lv : LogLevel)
    (m : String) (n : Option String) (h : l ∈ e.logs) : l ∈ (appendLog e lv m n).logs :=
  List.mem_append_left _ h

/-- The entry `appendLog` adds carries the given node id and level. -/
theorem appendLog_has (e : WorkflowExecution) (m : String) (nid : Option String)
    (lv : LogLevel) : ∃ l ∈ (appendLog e lv m nid).logs, l.nodeId = nid ∧ l.level = lv := by
  refine ⟨{ id := e.logs.length, nodeId := nid, message := m, level := lv,
            timestamp := e.logs.length }, ?_, rfl, rfl⟩
  simp [appendLog]

/-- `executeNode` touches no node record but its own. -/
theorem executeNode_getAssoc_ne (registry : Registry) (wf : Workflow)
    (node : WorkflowNode) (exec : WorkflowExecution) (env : List (String × String))
    (outs : OutputsMap) (sig : Bool) (clock : Nat) (x : String) (hx : x ≠ node.id) :
    getAssoc (executeNode registry wf node exec env outs sig clock).exec.nodeExecutions x =
      getAssoc exec.nodeExecutions x := by
  have hset : ∀ (m : List (String × NodeExecution)) (ne : NodeExecution),
      getAssoc (setAssoc m node.id ne) x = getAssoc m x := by
    intro m ne
    rw [getAssoc_setAssoc]
    simp [hx]
  unfold executeNode
  by_cases hst : node.type = "starter" <;>
  cases hreg : registry node.type with
  | none => simp [nodeFailure, appendLog_nodeExecutions, hst, hset]
  | some bhv =>
    rcases hres : bhv (mkCtx wf node env outs sig) with ⟨ws, outcome⟩
    cases outcome with
    | error m => simp [hres, nodeFailure, appendLog_nodeExecutions, hst, hset]
    | ok v => cases v <;> simp [hres, appendLog_nodeExecutions, hst, hset]

/-- When the behavior path succeeds, the node's record is stored with
status `success` and its `outputs` snapshot set. -/
theorem executeNode_ok_record (registry : Registry) (wf : Workflow)
    (node : WorkflowNode) (exec : WorkflowExecution) (env : List (String × String))
    (outs : OutputsMap) (sig : Bool) (clock : Nat)
    (h : (executeNode registry wf node exec env outs sig clock).err = none) :
    ∃ ne : NodeExecution,
      getAssoc (executeNode registry wf node exec env outs sig clock).exec.nodeExecutions
        node.id = some ne ∧ ne.status = .success ∧ ne.outputs.isSome = true := by
  have hset : ∀ (m : List (String × NodeExecution)) (ne : NodeExecution),
      getAssoc (setAssoc m node.id ne) node.id = some ne := by
    intro m ne
    rw [getAssoc_setAssoc]
    simp
  revert h
  unfold executeNode
  by_cases hst : node.type = "starter" <;>
  cases hreg : registry node.type with
  | none => intro h; simp [nodeFailure, hst] at h
  | some bhv =>
    rcases hres : bhv (mkCtx wf node env outs sig) with ⟨ws, outcome⟩
    cases outcome with
    | error m => intro h; simp [hres, nodeFailure, hst] at h
    | ok v =>
      intro _
      cases v <;>
      · simp only [hres, hst, if_true, if_false, reduceIte, appendLog_nodeExecutions]
        exact ⟨_, hset _ _, rfl, rfl⟩

/-- `executeNode` never drops a log entry. -/
theorem executeNode_logs_mono (registry : Registry) (wf : Workflow)
    (node : WorkflowNode) (exec : WorkflowExecution) (env : List (String × String))
    (outs : OutputsMap) (sig : Bool) (clock : Nat) {l : ExecutionLog} (h : l ∈ exec.logs) :
    l ∈ (executeNode registry wf node exec env outs sig clock).exec.logs := by
  unfold executeNode
  by_cases hst : node.type = "starter" <;>
  cases hreg : registry node.type with
  | none => simp [nodeFailure, appendLog, hst]; tauto
  | some bhv =>
    rcases hres : bhv (mkCtx wf node env outs sig) with ⟨ws, outcome⟩
    cases outcome with
    | error m => simp [hres, nodeFailure, appendLog, hst]; tauto
    | ok v => cases v <;> simp [hres, appendLog, hst] <;> tauto

/-- `executeNode` does not change the run-level status. -/
theorem executeNode_status (registry : Registry) (wf : Workflow)
    (node : WorkflowNode) (exec : WorkflowExecution) (env : List (String × String))
    (outs : OutputsMap) (sig : Bool) (clock : Nat) :
    (executeNode registry wf node exec env outs sig clock).exec.status = exec.status := by
  unfold executeNode
  by_cases hst : node.type = "starter" <;>
  cases hreg : registry node.type with
  | none => simp [nodeFailure, appendLog_status, hst]
  | some bhv =>
    rcases hres : bhv (mkCtx wf node env outs sig) with ⟨ws, outcome⟩
    cases outcome with
    | error m => simp [hres, nodeFailure, appendLog_status, hst]
    | ok v => cases v <;> simp [hres, appendLog_status, hst]

/-- When the node throws, its `🚨` log entry — tagged with the node's id at
level `error` — is in the record. -/
theorem executeNode_err_log (registry : Registry) (wf : Workflow)
    (node : WorkflowNode) (exec : WorkflowExecution) (env : List (String × String))
    (outs : OutputsMap) (sig : Bool) (clock : Nat) (m : String)
    (h : (executeNode registry wf node exec env outs sig clock).err = some m) :
    ∃ l ∈ (executeNode registry wf node exec env outs sig clock).exec.logs,
      l.nodeId = some node.id ∧ l.level = .error := by
  revert h
  unfold executeNode
  by_cases hst : node.type = "starter" <;>
  cases hreg : registry node.type with
  | none =>
    intro _
    exact appendLog_has _ _ _ _
  | some bhv =>
    rcases hres : bhv (mkCtx wf node env outs sig) with ⟨ws, outcome⟩
    cases outcome with
    | error m' =>
      intro _
      simp only [hres]
      exact appendLog_has _ _ _ _
    | ok v => intro h; cases v <;> simp [hres, hst] at h

/-! ## Graph reachability, for the failure-containment claim -/

/-- A path from the starter to `x` along `wf.edges` whose intermediate
sources all satisfy `allowed`. `Reaches wf (fun u => u ≠ a) x` is "`x` is
reachable from the starter without passing through `a`"; its negation (for
`x ≠ a`) is "`x` is reachable only through `a`". -/
inductive Reaches (wf : Workflow) (allowed : String → Prop) : String → Prop where
  | start : Reaches wf allowed wf.starterId
  | step {u v : String} : Reaches wf allowed u → allowed u →
      (∃ e ∈ wf.edges, e.source = u ∧ e.target = v) → Reaches wf allowed v

theorem Reaches.mono {wf : Workflow} {p q : String → Prop}
    (hpq : ∀ x, p x → q x) {x : String} (h : Reaches wf p x) : Reaches wf q x := by
  induction h with
  | start => exact .start
  | step _ hall hedge ih => exact .step ih (hpq _ hall) hedge

/-! ## Facts about the BFS loop -/

theorem abortHit_some (a iter : Nat) : abortHit (some a) iter = true ↔ a ≤ iter := by
  simp [abortHit]

/-- Members of `getConnectedNodes wf u` are exactly targets of edges out of
`u` that exist as nodes. -/
theorem mem_getConnectedNodes {wf : Workflow} {u : String} {n : WorkflowNode}
    (h : n ∈ getConnectedNodes wf u) :
    ∃ e ∈ wf.edges, e.source = u ∧ e.target = n.id := by
  unfold getConnectedNodes at h
  have h2 := List.of_mem_filter h
  simp only [List.contains_iff_exists_mem_beq, List.mem_map] at h2
  obtain ⟨tgt, ⟨e, hmem, hsrc⟩, hbeq⟩ := h2
  refine ⟨e, (List.mem_filter.mp hmem).1, ?_, ?_⟩
  · simpa using (List.mem_filter.mp hmem).2
  · rw [hsrc]
    exact (eq_of_beq hbeq).symm

/-- The loop only appends to the success trace. -/
theorem runLoop_trace_mono (registry : Registry) (wf : Workflow)
    (env : List (String × String)) (abortAt : Option Nat) :
    ∀ (fuel iter : Nat) (visited queue : List String) (exec : WorkflowExecution)
      (outs : OutputsMap) (clock : Nat) (trace : List String),
      trace <+:
        (runLoop registry wf env abortAt fuel iter visited queue exec outs clock trace).trace := by
  intro fuel
  induction fuel with
  | zero =>
    intro iter visited queue exec outs clock trace
    simp [runLoop]
  | succ n ih =>
    intro iter visited queue exec outs clock trace
    cases queue with
    | nil => simp [runLoop]
    | cons nodeId rest =>
      by_cases ha : abortHit abortAt iter = true
      · simp [runLoop, ha]
      · by_cases hv : nodeId ∈ visited
        · simpa only [runLoop, ha, if_false, hv, if_true, Bool.false_eq_true] using
            ih (iter + 1) visited rest exec outs clock trace
        · cases hfind : wf.nodes.find? (fun nd => nd.id = nodeId) with
          | none =>
            simpa only [runLoop, ha, if_false, hv, if_true, hfind, Bool.false_eq_true] using
              ih (iter + 1) (nodeId :: visited) rest exec outs clock trace
          | some node =>
            cases herr : (executeNode registry wf node exec env outs (abortHit abortAt (iter + 1)) clock).err with
            | some m => simp [runLoop, ha, hv, hfind, herr]
            | none =>
              have htail := ih (iter + 1) (nodeId :: visited)
                (rest ++ ((getConnectedNodes wf nodeId).filter
                  (fun nd => ¬ (nd.id ∈ (nodeId :: visited)))).map (·.id))
                (executeNode registry wf node exec env outs (abortHit abortAt (iter + 1)) clock).exec
                (executeNode registry wf node exec env outs (abortHit abortAt (iter + 1)) clock).outs
                (executeNode registry wf node exec env outs (abortHit abortAt (iter + 1)) clock).clock
                (trace ++ [node.id])
              have hpre : trace <+: trace ++ [node.id] := List.prefix_append trace [node.id]
              simp only [runLoop, ha, hv, hfind, herr, Bool.false_eq_true, if_false, if_true]
              exact hpre.trans htail

/-- The loop never discards a log entry. -/
theorem runLoop_logs_mono (registry : Registry) (wf : Workflow)
    (env : List (String × String)) (abortAt : Option Nat) :
    ∀ (fuel iter : Nat) (visited queue : List String) (exec : WorkflowExecution)
      (outs : OutputsMap) (clock : Nat) (trace : List String) {l : ExecutionLog},
      l ∈ exec.logs →
      l ∈ (runLoop registry wf env abortAt fuel iter visited queue exec outs clock trace).exec.logs := by
  intro fuel
  induction fuel with
  | zero =>
    intro iter visited queue exec outs clock trace l hl
    simpa [runLoop] using hl
  | succ n ih =>
    intro iter visited queue exec outs clock trace l hl
    cases queue with
    | nil => simpa [runLoop] using hl
    | cons nodeId rest =>
      by_cases ha : abortHit abortAt iter = true
      · simpa [runLoop, ha] using hl
      · by_cases hv : nodeId ∈ visited
        · simp only [runLoop, ha, hv, Bool.false_eq_true, if_false, if_true]
          exact ih (iter + 1) visited rest exec outs clock trace hl
        · cases hfind : wf.nodes.find? (fun nd => nd.id = nodeId) with
          | none =>
            simp only [runLoop, ha, hv, hfind, Bool.false_eq_true, if_false, if_true]
            exact ih (iter + 1) (nodeId :: visited) rest exec outs clock trace hl
          | some node =>
            have hl2 : l ∈ (executeNode registry wf node exec env outs (abortHit abortAt (iter + 1)) clock).exec.logs :=
              executeNode_logs_mono registry wf node exec env outs (abortHit abortAt (iter + 1)) clock hl
            cases herr : (executeNode registry wf node exec env outs (abortHit abortAt (iter + 1)) clock).err with
            | some m =>
              simp only [runLoop, ha, hv, hfind, herr, Bool.false_eq_true, if_false, if_true]
              exact mem_appendLog _ _ _ hl2
            | none =>
              simp only [runLoop, ha, hv, hfind, herr, Bool.false_eq_true, if_false, if_true]
              exact ih (iter + 1) (nodeId :: visited) _ _ _ _ _ hl2

/-- Breaking on the abort signal is the only way `aborted` is set; it
leaves the record `cancelled` and carries no error. -/
theorem runLoop_aborted_spec (registry : Registry) (wf : Workflow)
    (env : List (String × String)) (abortAt : Option Nat) :
    ∀ (fuel iter : Nat) (visited queue : List String) (exec : WorkflowExecution)
      (outs : OutputsMap) (clock : Nat) (trace : List String),
      (runLoop registry wf env abortAt fuel iter visited queue exec outs clock trace).aborted = true →
      (runLoop registry wf env abortAt fuel iter visited queue exec outs clock trace).exec.status
          = .cancelled ∧
      (runLoop registry wf env abortAt fuel iter visited queue exec outs clock trace).err = none := by
  intro fuel
  induction fuel with
  | zero =>
    intro iter visited queue exec outs clock trace h
    simp [runLoop] at h
  | succ n ih =>
    intro iter visited queue exec outs clock trace h
    cases queue with
    | nil => simp [runLoop] at h
    | cons nodeId rest =>
      by_cases ha : abortHit abortAt iter = true
      · simp [runLoop, ha]
      · by_cases hv : nodeId ∈ visited
        · simp only [runLoop, ha, hv, Bool.false_eq_true, if_false, if_true] at h ⊢
          exact ih (iter + 1) visited rest exec outs clock trace h
        · cases hfind : wf.nodes.find? (fun nd => nd.id = nodeId) with
          | none =>
            simp only [runLoop, ha, hv, hfind, Bool.false_eq_true, if_false, if_true] at h ⊢
            exact ih (iter + 1) (nodeId :: visited) rest exec outs clock trace h
          | some node =>
            cases herr : (executeNode registry wf node exec env outs (abortHit abortAt (iter + 1)) clock).err with
            | some m =>
              simp only [runLoop, ha, hv, hfind, herr, Bool.false_eq_true, if_false,
                if_true] at h
            | none =>
              simp only [runLoop, ha, hv, hfind, herr, Bool.false_eq_true, if_false,
                if_true] at h ⊢
              exact ih (iter + 1) (nodeId :: visited) _ _ _ _ _ h

/-- When the loop ends with a node failure: the record is `error`, the
failing node is not in the success trace, and an error-level log entry
tagged with the failing node's id is in the record. -/
theorem runLoop_err (registry : Registry) (wf : Workflow)
    (env : List (String × String)) (abortAt : Option Nat) :
    ∀ (fuel iter : Nat) (visited queue : List String) (exec : WorkflowExecution)
      (outs : OutputsMap) (clock : Nat) (trace : List String),
      (∀ x ∈ trace, x ∈ visited) →
      ∀ A m,
      (runLoop registry wf env abortAt fuel iter visited queue exec outs clock trace).err
          = some (A, m) →
        (runLoop registry wf env abortAt fuel iter visited queue exec outs clock trace).exec.status
            = .error ∧
        A ∉ (runLoop registry wf env abortAt fuel iter visited queue exec outs clock trace).trace ∧
        ∃ l ∈ (runLoop registry wf env abortAt fuel iter visited queue exec outs
            clock trace).exec.logs, l.nodeId = some A ∧ l.level = .error := by
  intro fuel
  induction fuel with
  | zero =>
    intro iter visited queue exec outs clock trace _ A m h
    simp [runLoop] at h
  | succ n ih =>
    intro iter visited queue exec outs clock trace htv A m h
    cases queue with
    | nil => simp [runLoop] at h
    | cons nodeId rest =>
      by_cases ha : abortHit abortAt iter = true
      · simp [runLoop, ha] at h
      · by_cases hv : nodeId ∈ visited
        · simp only [runLoop, ha, hv, Bool.false_eq_true, if_false, if_true] at h ⊢
          exact ih (iter + 1) visited rest exec outs clock trace htv A m h
        · cases hfind : wf.nodes.find? (fun nd => nd.id = nodeId) with
          | none =>
            simp only [runLoop, ha, hv, hfind, Bool.false_eq_true, if_false, if_true] at h ⊢
            exact ih (iter + 1) (nodeId :: visited) rest exec outs clock trace
              (fun x hx => List.mem_cons_of_mem _ (htv x hx)) A m h
          | some node =>
            have hnid : node.id = nodeId := by
              have := List.find?_some hfind
              simpa using this
            cases herr : (executeNode registry wf node exec env outs (abortHit abortAt (iter + 1)) clock).err with
            | some m0 =>
              simp only [runLoop, ha, hv, hfind, herr, Bool.false_eq_true, if_false, if_true,
                Option.some.injEq, Prod.mk.injEq] at h ⊢
              obtain ⟨hA, hm⟩ := h
              constructor
              · exact rfl
              constructor
              · intro hAtr
                exact hv (hnid ▸ hA ▸ htv A hAtr)
              · obtain ⟨l, hl, hln, hlv⟩ :=
                  executeNode_err_log registry wf node exec env outs (abortHit abortAt (iter + 1)) clock m0 herr
                exact ⟨l, mem_appendLog _ _ _ hl, by rw [hln, hA], hlv⟩
            | none =>
              simp only [runLoop, ha, hv, hfind, herr, Bool.false_eq_true, if_false, if_true]
                at h ⊢
              refine ih (iter + 1) (nodeId :: visited) _ _ _ _ (trace ++ [node.id]) ?_ A m h
              intro x hx
              rcases List.mem_append.mp hx with hx | hx
              · exact List.mem_cons_of_mem _ (htv x hx)
              · simp only [List.mem_singleton] at hx
                subst hx
                exact hnid ▸ List.mem_cons_self _ _

/-- Each node's behavior runs at most once: the success trace has no
duplicates. -/
theorem runLoop_nodup (registry : Registry) (wf : Workflow)
    (env : List (String × String)) (abortAt : Option Nat) :
    ∀ (fuel iter : Nat) (visited queue : List String) (exec : WorkflowExecution)
      (outs : OutputsMap) (clock : Nat) (trace : List String),
      (∀ x ∈ trace, x ∈ visited) → trace.Nodup →
      (runLoop registry wf env abortAt fuel iter visited queue exec outs clock trace).trace.Nodup := by
  intro fuel
  induction fuel with
  | zero =>
    intro iter visited queue exec outs clock trace _ hnd
    simpa [runLoop] using hnd
  | succ n ih =>
    intro iter visited queue exec outs clock trace htv hnd
    cases queue with
    | nil => simpa [runLoop] using hnd
    | cons nodeId rest =>
      by_cases ha : abortHit abortAt iter = true
      · simpa [runLoop, ha] using hnd
      · by_cases hv : nodeId ∈ visited
        · simp only [runLoop, ha, hv, Bool.false_eq_true, if_false, if_true]
          exact ih (iter + 1) visited rest exec outs clock trace htv hnd
        · cases hfind : wf.nodes.find? (fun nd => nd.id = nodeId) with
          | none =>
            simp only [runLoop, ha, hv, hfind, Bool.false_eq_true, if_false, if_true]
            exact ih (iter + 1) (nodeId :: visited) rest exec outs clock trace
              (fun x hx => List.mem_cons_of_mem _ (htv x hx)) hnd
          | some node =>
            have hnid : node.id = nodeId := by
              have := List.find?_some hfind
              simpa using this
            cases herr : (executeNode registry wf node exec env outs (abortHit abortAt (iter + 1)) clock).err with
            | some m => simpa [runLoop, ha, hv, hfind, herr] using hnd
            | none =>
              simp only [runLoop, ha, hv, hfind, herr, Bool.false_eq_true, if_false, if_true]
              refine ih (iter + 1) (nodeId :: visited) _ _ _ _ (trace ++ [node.id]) ?_ ?_
              · intro x hx
                rcases List.mem_append.mp hx with hx | hx
                · exact List.mem_cons_of_mem _ (htv x hx)
                · simp only [List.mem_singleton] at hx
                  subst hx
                  exact hnid ▸ List.mem_cons_self _ _
              · rw [List.nodup_append]
                refine ⟨hnd, List.nodup_singleton _, ?_⟩
                intro x hx hx1
                simp only [List.mem_singleton] at hx1
                subst hx1
                exact hv (hnid ▸ htv _ hx)

/-- Every node in the success trace has a `success` node record with its
`outputs` snapshot set, and keeps it for the rest of the loop. -/
theorem runLoop_success_records (registry : Registry) (wf : Workflow)
    (env : List (String × String)) (abortAt : Option Nat) :
    ∀ (fuel iter : Nat) (visited queue : List String) (exec : WorkflowExecution)
      (outs : OutputsMap) (clock : Nat) (trace : List String),
      (∀ x ∈ trace, x ∈ visited) →
      (∀ x ∈ trace, ∃ ne : NodeExecution, getAssoc exec.nodeExecutions x = some ne ∧
          ne.status = .success ∧ ne.outputs.isSome = true) →
      ∀ x ∈ (runLoop registry wf env abortAt fuel iter visited queue exec outs clock trace).trace,
        ∃ ne : NodeExecution,
          getAssoc (runLoop registry wf env abortAt fuel iter visited queue exec outs
              clock trace).exec.nodeExecutions x = some ne ∧
          ne.status = .success ∧ ne.outputs.isSome = true := by
  intro fuel
  induction fuel with
  | zero =>
    intro iter visited queue exec outs clock trace _ hrec x hx
    simp only [runLoop] at hx ⊢
    exact hrec x hx
  | succ n ih =>
    intro iter visited queue exec outs clock trace htv hrec x hx
    cases queue with
    | nil =>
      simp only [runLoop] at hx ⊢
      exact hrec x hx
    | cons nodeId rest =>
      by_cases ha : abortHit abortAt iter = true
      · simp only [runLoop, ha, if_true] at hx ⊢
        exact hrec x hx
      · by_cases hv : nodeId ∈ visited
        · simp only [runLoop, ha, hv, Bool.false_eq_true, if_false, if_true] at hx ⊢
          exact ih (iter + 1) visited rest exec outs clock trace htv hrec x hx
        · cases hfind : wf.nodes.find? (fun nd => nd.id = nodeId) with
          | none =>
            simp only [runLoop, ha, hv, hfind, Bool.false_eq_true, if_false, if_true] at hx ⊢
            exact ih (iter + 1) (nodeId :: visited) rest exec outs clock trace
              (fun y hy => List.mem_cons_of_mem _ (htv y hy)) hrec x hx
          | some node =>
            have hnid : node.id = nodeId := by
              have := List.find?_some hfind
              simpa using this
            have hne_of_mem : ∀ y ∈ trace, y ≠ node.id := by
              intro y hy hid
              exact hv (hnid ▸ hid ▸ htv y hy)
            cases herr : (executeNode registry wf node exec env outs (abortHit abortAt (iter + 1)) clock).err with
            | some m =>
              simp only [runLoop, ha, hv, hfind, herr, Bool.false_eq_true, if_false,
                if_true] at hx ⊢
              obtain ⟨ne, hget, hst, hout⟩ := hrec x hx
              refine ⟨ne, ?_, hst, hout⟩
              show getAssoc (executeNode registry wf node exec env outs (abortHit abortAt (iter + 1)) clock).exec.nodeExecutions x
                  = some ne
              rw [executeNode_getAssoc_ne registry wf node exec env outs
                (abortHit abortAt (iter + 1)) clock x (hne_of_mem x hx)]
              exact hget
            | none =>
              simp only [runLoop, ha, hv, hfind, herr, Bool.false_eq_true, if_false,
                if_true] at hx ⊢
              refine ih (iter + 1) (nodeId :: visited) _ _ _ _ (trace ++ [node.id]) ?_ ?_ x hx
              · intro y hy
                rcases List.mem_append.mp hy with hy | hy
                · exact List.mem_cons_of_mem _ (htv y hy)
                · simp only [List.mem_singleton] at hy
                  subst hy
                  exact hnid ▸ List.mem_cons_self _ _
              · intro y hy
                rcases List.mem_append.mp hy with hy | hy
                · obtain ⟨ne, hget, hst, hout⟩ := hrec y hy
                  refine ⟨ne, ?_, hst, hout⟩
                  rw [executeNode_getAssoc_ne registry wf node exec env outs
                    (abortHit abortAt (iter + 1)) clock y (hne_of_mem y hy)]
                  exact hget
                · simp only [List.mem_singleton] at hy
                  subst hy
                  exact executeNode_ok_record registry wf node exec env outs (abortHit abortAt (iter + 1)) clock herr

/-- Every node the loop executes is reachable from the starter along a
path whose intermediate nodes were all executed successfully. -/
theorem runLoop_reach (registry : Registry) (wf : Workflow)
    (env : List (String × String)) (abortAt : Option Nat) :
    ∀ (fuel iter : Nat) (visited queue : List String) (exec : WorkflowExecution)
      (outs : OutputsMap) (clock : Nat) (trace : List String),
      (∀ q ∈ queue, Reaches wf (fun u => u ∈ trace) q) →
      (∀ x ∈ trace, Reaches wf (fun u => u ∈ trace) x) →
      ∀ x ∈ (runLoop registry wf env abortAt fuel iter visited queue exec outs clock trace).trace,
        Reaches wf
          (fun u => u ∈ (runLoop registry wf env abortAt fuel iter visited queue exec outs
            clock trace).trace) x := by
  intro fuel
  induction fuel with
  | zero =>
    intro iter visited queue exec outs clock trace _ htr x hx
    simp only [runLoop] at hx ⊢
    exact htr x hx
  | succ n ih =>
    intro iter visited queue exec outs clock trace hq htr x hx
    cases queue with
    | nil =>
      simp only [runLoop] at hx ⊢
      exact htr x hx
    | cons nodeId rest =>
      by_cases ha : abortHit abortAt iter = true
      · simp only [runLoop, ha, if_true] at hx ⊢
        exact htr x hx
      · by_cases hv : nodeId ∈ visited
        · simp only [runLoop, ha, hv, Bool.false_eq_true, if_false, if_true] at hx ⊢
          exact ih (iter + 1) visited rest exec outs clock trace
            (fun q hqm => hq q (List.mem_cons_of_mem _ hqm)) htr x hx
        · cases hfind : wf.nodes.find? (fun nd => nd.id = nodeId) with
          | none =>
            simp only [runLoop, ha, hv, hfind, Bool.false_eq_true, if_false, if_true] at hx ⊢
            exact ih (iter + 1) (nodeId :: visited) rest exec outs clock trace
              (fun q hqm => hq q (List.mem_cons_of_mem _ hqm)) htr x hx
          | some node =>
            have hnid : node.id = nodeId := by
              have := List.find?_some hfind
              simpa using this
            cases herr : (executeNode registry wf node exec env outs (abortHit abortAt (iter + 1)) clock).err with
            | some m =>
              simp only [runLoop, ha, hv, hfind, herr, Bool.false_eq_true, if_false,
                if_true] at hx ⊢
              exact htr x hx
            | none =>
              simp only [runLoop, ha, hv, hfind, herr, Bool.false_eq_true, if_false,
                if_true] at hx ⊢
              have hmono : ∀ y, y ∈ trace → y ∈ trace ++ [node.id] := by
                intro y hy
                exact List.mem_append_left _ hy
              have hhead : Reaches wf (fun u => u ∈ trace ++ [node.id]) nodeId :=
                (hq nodeId (List.mem_cons_self _ _)).mono hmono
              refine ih (iter + 1) (nodeId :: visited) _ _ _ _ (trace ++ [node.id]) ?_ ?_ x hx
              · intro q hqm
                rcases List.mem_append.mp hqm with hqm | hqm
                · exact (hq q (List.mem_cons_of_mem _ hqm)).mono hmono
                · simp only [List.mem_map] at hqm
                  obtain ⟨nd, hnd, hndq⟩ := hqm
                  obtain ⟨e, he, hsrc, htgt⟩ := mem_getConnectedNodes (List.mem_of_mem_filter hnd)
                  refine Reaches.step hhead ?_ ⟨e, he, hsrc, by rw [htgt, hndq]⟩
                  rw [← hnid]
                  exact List.mem_append_right _ (List.mem_singleton.mpr rfl)
              · intro y hy
                rcases List.mem_append.mp hy with hy | hy
                · exact (htr y hy).mono hmono
                · simp only [List.mem_singleton] at hy
                  subst hy
                  exact hnid ▸ hhead

/-- With `stop()` observable from iteration `a` on, the loop executes at
most `a - iter` further nodes. -/
theorem runLoop_len (registry : Registry) (wf : Workflow)
    (env : List (String × String)) (a : Nat) :
    ∀ (fuel iter : Nat) (visited queue : List String) (exec : WorkflowExecution)
      (outs : OutputsMap) (clock : Nat) (trace : List String),
      (runLoop registry wf env (some a) fuel iter visited queue exec outs clock trace).trace.length
          + min iter a ≤ trace.length + a := by
  intro fuel
  induction fuel with
  | zero =>
    intro iter visited queue exec outs clock trace
    simp only [runLoop]
    omega
  | succ n ih =>
    intro iter visited queue exec outs clock trace
    cases queue with
    | nil =>
      simp only [runLoop]
      omega
    | cons nodeId rest =>
      by_cases ha : abortHit (some a) iter = true
      · simp only [runLoop, ha, if_true]
        omega
      · have hlt : iter < a := by
          have : ¬ a ≤ iter := fun hle => ha ((abortHit_some a iter).mpr hle)
          omega
        by_cases hv : nodeId ∈ visited
        · simp only [runLoop, ha, hv, Bool.false_eq_true, if_false, if_true]
          have := ih (iter + 1) visited rest exec outs clock trace
          omega
        · cases hfind : wf.nodes.find? (fun nd => nd.id = nodeId) with
          | none =>
            simp only [runLoop, ha, hv, hfind, Bool.false_eq_true, if_false, if_true]
            have := ih (iter + 1) (nodeId :: visited) rest exec outs clock trace
            omega
          | some node =>
            cases herr : (executeNode registry wf node exec env outs (abortHit (some a) (iter + 1)) clock).err with
            | some m =>
              simp only [runLoop, ha, hv, hfind, herr, Bool.false_eq_true, if_false, if_true]
              omega
            | none =>
              simp only [runLoop, ha, hv, hfind, herr, Bool.false_eq_true, if_false, if_true]
              have := ih (iter + 1) (nodeId :: visited)
                (rest ++ ((getConnectedNodes wf nodeId).filter
                  (fun nd => ¬ (nd.id ∈ (nodeId :: visited)))).map (·.id))
                (executeNode registry wf node exec env outs (abortHit (some a) (iter + 1)) clock).exec
                (executeNode registry wf node exec env outs (abortHit (some a) (iter + 1)) clock).outs
                (executeNode registry wf node exec env outs (abortHit (some a) (iter + 1)) clock).clock
                (trace ++ [node.id])
              rw [List.length_append, List.length_singleton] at this
              omega

theorem abortHit_none (iter : Nat) : abortHit none iter = false := rfl

/-- Partial sums over the unvisited-nodes filter are antitone in the
visited set. -/
theorem sumFilter_mono (wf : Workflow) (nodes : List WorkflowNode)
    {v1 v2 : List String} (h : ∀ x, x ∈ v1 → x ∈ v2) :
    ((nodes.filter (fun n => ¬ (n.id ∈ v2))).map (fun n => pushWeight wf n.id)).sum ≤
    ((nodes.filter (fun n => ¬ (n.id ∈ v1))).map (fun n => pushWeight wf n.id)).sum := by
  induction nodes with
  | nil => simp
  | cons nd t ih =>
    by_cases h2 : nd.id ∈ v2
    · have e2 : (nd :: t).filter (fun n => ¬ (n.id ∈ v2))
          = t.filter (fun n => ¬ (n.id ∈ v2)) := by
        simp [List.filter_cons, h2]
      rw [e2]
      by_cases h1 : nd.id ∈ v1
      · have e1 : (nd :: t).filter (fun n => ¬ (n.id ∈ v1))
            = t.filter (fun n => ¬ (n.id ∈ v1)) := by
          simp [List.filter_cons, h1]
        rw [e1]
        exact ih
      · have e1 : (nd :: t).filter (fun n => ¬ (n.id ∈ v1))
            = nd :: t.filter (fun n => ¬ (n.id ∈ v1)) := by
          simp [List.filter_cons, h1]
        rw [e1]
        simp only [List.map_cons, List.sum_cons]
        omega
    · have h1 : nd.id ∉ v1 := fun hm => h2 (h _ hm)
      have e2 : (nd :: t).filter (fun n => ¬ (n.id ∈ v2))
          = nd :: t.filter (fun n => ¬ (n.id ∈ v2)) := by
        simp [List.filter_cons, h2]
      have e1 : (nd :: t).filter (fun n => ¬ (n.id ∈ v1))
          = nd :: t.filter (fun n => ¬ (n.id ∈ v1)) := by
        simp [List.filter_cons, h1]
      rw [e2, e1]
      simp only [List.map_cons, List.sum_cons]
      omega

/-- Marking a present, unvisited node visited frees at least its own push
weight from the sum. -/
theorem sumFilter_drop (wf : Workflow) (nodes : List WorkflowNode)
    (visited : List String) (q : String) (h : ∃ nd ∈ nodes, nd.id = q)
    (hq : q ∉ visited) :
    ((nodes.filter (fun n => ¬ (n.id ∈ q :: visited))).map (fun n => pushWeight wf n.id)).sum
        + pushWeight wf q ≤
    ((nodes.filter (fun n => ¬ (n.id ∈ visited))).map (fun n => pushWeight wf n.id)).sum := by
  induction nodes with
  | nil => simp at h
  | cons nd t ih =>
    by_cases hid : nd.id = q
    · have e2 : (nd :: t).filter (fun n => ¬ (n.id ∈ q :: visited))
          = t.filter (fun n => ¬ (n.id ∈ q :: visited)) := by
        simp [List.filter_cons, hid]
      have e1 : (nd :: t).filter (fun n => ¬ (n.id ∈ visited))
          = nd :: t.filter (fun n => ¬ (n.id ∈ visited)) := by
        simp [List.filter_cons, hid, hq]
      rw [e2, e1]
      simp only [List.map_cons, List.sum_cons, hid]
      have := @sumFilter_mono wf t visited (q :: visited)
        (fun x hx => List.mem_cons_of_mem _ hx)
      omega
    · have ht : ∃ nd' ∈ t, nd'.id = q := by
        obtain ⟨nd', hmem, hid'⟩ := h
        rcases List.mem_cons.mp hmem with rfl | hmem
        · exact absurd hid' hid
        · exact ⟨nd', hmem, hid'⟩
      by_cases hm : nd.id ∈ visited
      · have e2 : (nd :: t).filter (fun n => ¬ (n.id ∈ q :: visited))
            = t.filter (fun n => ¬ (n.id ∈ q :: visited)) := by
          simp [List.filter_cons, List.mem_cons, hm]
        have e1 : (nd :: t).filter (fun n => ¬ (n.id ∈ visited))
            = t.filter (fun n => ¬ (n.id ∈ visited)) := by
          simp [List.filter_cons, hm]
        rw [e2, e1]
        exact ih ht
      · have e2 : (nd :: t).filter (fun n => ¬ (n.id ∈ q :: visited))
            = nd :: t.filter (fun n => ¬ (n.id ∈ q :: visited)) := by
          simp [List.filter_cons, List.mem_cons, hid, hm]
        have e1 : (nd :: t).filter (fun n => ¬ (n.id ∈ visited))
            = nd :: t.filter (fun n => ¬ (n.id ∈ visited)) := by
          simp [List.filter_cons, hm]
        rw [e2, e1]
        simp only [List.map_cons, List.sum_cons]
        have := ih ht
        omega

theorem sumW_mono (wf : Workflow) {v1 v2 : List String} (h : ∀ x, x ∈ v1 → x ∈ v2) :
    sumW wf v2 ≤ sumW wf v1 :=
  sumFilter_mono wf wf.nodes h

theorem sumW_drop (wf : Workflow) (visited : List String) (q : String)
    (h : ∃ nd ∈ wf.nodes, nd.id = q) (hq : q ∉ visited) :
    sumW wf (q :: visited) + pushWeight wf q ≤ sumW wf visited :=
  sumFilter_drop wf wf.nodes visited q h hq

/-- The loop terminates: with fuel exceeding the queue plus the remaining
push weight, the fuel never runs out. This is the termination argument for
the unbounded TS `while` loop — each iteration pops one queue element and
pushes at most the newly visited node's push weight. -/
theorem runLoop_fuel (registry : Registry) (wf : Workflow)
    (env : List (String × String)) (abortAt : Option Nat) :
    ∀ (fuel iter : Nat) (visited queue : List String) (exec : WorkflowExecution)
      (outs : OutputsMap) (clock : Nat) (trace : List String),
      queue.length + sumW wf visited < fuel →
      (runLoop registry wf env abortAt fuel iter visited queue exec outs clock trace).ranOut
        = false := by
  intro fuel
  induction fuel with
  | zero =>
    intro iter visited queue exec outs clock trace hlt
    omega
  | succ n ih =>
    intro iter visited queue exec outs clock trace hlt
    cases queue with
    | nil => simp [runLoop]
    | cons nodeId rest =>
      by_cases ha : abortHit abortAt iter = true
      · simp [runLoop, ha]
      · by_cases hv : nodeId ∈ visited
        · simp only [runLoop, ha, hv, Bool.false_eq_true, if_false, if_true]
          refine ih (iter + 1) visited rest exec outs clock trace ?_
          simp only [List.length_cons] at hlt
          omega
        · cases hfind : wf.nodes.find? (fun nd => nd.id = nodeId) with
          | none =>
            simp only [runLoop, ha, hv, hfind, Bool.false_eq_true, if_false, if_true]
            refine ih (iter + 1) (nodeId :: visited) rest exec outs clock trace ?_
            have hmono := @sumW_mono wf visited (nodeId :: visited)
              (fun x hx => List.mem_cons_of_mem _ hx)
            simp only [List.length_cons] at hlt
            omega
          | some node =>
            have hnid : node.id = nodeId := by
              have := List.find?_some hfind
              simpa using this
            have hmem : node ∈ wf.nodes := List.mem_of_find?_eq_some hfind
            cases herr : (executeNode registry wf node exec env outs (abortHit abortAt (iter + 1)) clock).err with
            | some m =>
              simp [runLoop, ha, hv, hfind, herr]
            | none =>
              simp only [runLoop, ha, hv, hfind, herr, Bool.false_eq_true, if_false, if_true]
              refine ih (iter + 1) (nodeId :: visited) _ _ _ _ (trace ++ [node.id]) ?_
              have hdrop := sumW_drop wf visited nodeId ⟨node, hmem, hnid⟩ hv
              have hpush :
                  (((getConnectedNodes wf nodeId).filter
                    (fun nd => ¬ (nd.id ∈ (nodeId :: visited)))).map (·.id)).length ≤
                  pushWeight wf nodeId := by
                rw [List.length_map]
                exact (List.length_filter_le _ _).trans (le_of_eq rfl)
              rw [List.length_append, List.length_map]
              rw [List.length_map] at hpush
              simp only [List.length_cons] at hlt
              omega

/-! ## The network capability (`ExecutionEngine.createFetchWithTimeout`,
engine.ts lines 213–239) -/

/-- The fixed timeout of the wrapper: `setTimeout(() => controller.abort(), 30000)`.
The wrapper takes no per-call timeout parameter. -/
def fetchTimeoutMs : Nat := 30000

/-- How a wrapped call can end. Both the 30s timer and the engine's abort
call `controller.abort()` on the same `AbortController`, so the only
failure the wrapper produces is the one abort error — there is no
`TimeoutError` / `CancelledError` distinction anywhere in the engine. -/
inductive FetchOutcome where
  | ok
  | abortError
  deriving DecidableEq

/-- Observable behavior of one call through `createFetchWithTimeout`:
* `engineAborted` — whether the run's signal aborts during the call;
* `callerSignal` — `init?.signal` (`none` when the caller passed no signal;
  `some b` a caller signal whose aborted state is `b`);
* `elapsedMs` — how long the underlying fetch would take.
The request is issued with `init?.signal ?? controller.signal`
(engine.ts line 229), so a caller-supplied signal makes the wrapper's
controller — and with it both the 30s timer and the engine abort —
irrelevant to the request. -/
def fetchWithTimeout (engineAborted : Bool) (callerSignal : Option Bool)
    (elapsedMs : Nat) : FetchOutcome :=
  match callerSignal with
  | some s => if s then .abortError else .ok
  | none =>
    if engineAborted || decide (fetchTimeoutMs ≤ elapsedMs) then .abortError else .ok

end WorkflowAI

namespace WorkflowAI.Cx

/-! ## Concrete workflows and registries used by the counterexamples -/

/-- A registry in which every type's behavior succeeds with no writes:
`"starter"` returns an empty object (like the starter block), everything
else a string. -/
def regOK : Registry := fun t =>
  if t = "starter" then some (fun _ => ([], .ok (.vObj [])))
  else some (fun _ => ([], .ok (.vStr "ok")))

/-- Graph for C1: `S→A`, `S→C`, `A→B`, `B→C`, starter `S`. `C` is a join
node with predecessors `S` and `B`. -/
def wfJoin : Workflow :=
  { id := "wf1", name := "join", starterId := "S"
    nodes := [⟨"S", "starter", []⟩, ⟨"A", "t", []⟩, ⟨"B", "t", []⟩, ⟨"C", "t", []⟩]
    edges := [⟨"e1", "S", "A"⟩, ⟨"e2", "S", "C"⟩, ⟨"e3", "A", "B"⟩, ⟨"e4", "B", "C"⟩] }

/-- Graph for C2: the two-node cycle `A→B→A`, starter `A`. -/
def wfCycle : Workflow :=
  { id := "wf2", name := "cycle", starterId := "A"
    nodes := [⟨"A", "starter", []⟩, ⟨"B", "t", []⟩]
    edges := [⟨"eAB", "A", "B"⟩, ⟨"eBA", "B", "A"⟩] }

/-- Graph for C2: an edge whose target `Z` names no node. -/
def wfDangling : Workflow :=
  { id := "wf3", name := "dangling", starterId := "A"
    nodes := [⟨"A", "starter", []⟩]
    edges := [⟨"eAZ", "A", "Z"⟩] }

/-- Graph for C3: `starterId` names no node. -/
def wfNoStarter : Workflow :=
  { id := "wf4", name := "nostarter", starterId := "S"
    nodes := [⟨"A", "starter", []⟩]
    edges := [] }

/-- Behavior for C4's worked example: writes `{a:1}` via `setNodeOutput`,
then returns `{a:2, b:3}`. -/
def bhvC4 : Behavior := fun _ =>
  ([("a", .vNum 1)], .ok (.vObj [("a", .vNum 2), ("b", .vNum 3)]))

def regC4 : Registry := fun t => if t = "t4" then some bhvC4 else none

def nodeC4 : WorkflowNode := ⟨"n1", "t4", []⟩

def wfC4 : Workflow :=
  { id := "wf5", name := "merge", starterId := "n1", nodes := [nodeC4], edges := [] }

/-- An empty starting record, as `executeWorkflow` builds it. -/
def exec0 : WorkflowExecution :=
  { id := "exec-0", workflowId := "wf5", status := .running, startTime := 0,
    logs := [], nodeExecutions := [] }

/-- Registry for C5's witness: node type `boom` throws. -/
def regFail : Registry := fun t =>
  if t = "starter" then some (fun _ => ([], .ok (.vObj [])))
  else if t = "boom" then some (fun _ => ([], .error "boom"))
  else none

/-- Graph for C5's witness: `S → A` where `A` throws. -/
def wfFail : Workflow :=
  { id := "wf6", name := "fail", starterId := "S"
    nodes := [⟨"S", "starter", []⟩, ⟨"A", "boom", []⟩, ⟨"B", "t", []⟩]
    edges := [⟨"e1", "S", "A"⟩, ⟨"e2", "A", "B"⟩] }

/-- Registry for C7's counterexample: node type `str` returns the plain
string `"hello"` and performs no explicit writes. -/
def regStr : Registry := fun t =>
  if t = "starter" then some (fun _ => ([], .ok (.vObj [])))
  else if t = "str" then some (fun _ => ([], .ok (.vStr "hello")))
  else none

/-- Graph for C7's counterexample: `S → N` where `N` returns a string. -/
def wfStr : Workflow :=
  { id := "wf7", name := "str", starterId := "S"
    nodes := [⟨"S", "starter", []⟩, ⟨"N", "str", []⟩]
    edges := [⟨"e1", "S", "N"⟩] }

/-- A behavior that honors the run's cancellation signal, as the agent
block does (it passes `ctx.abortSignal` into its provider fetch and
rethrows the resulting failure): when the signal is aborted during its
call, it throws. -/
def bhvAbortAware : Behavior := fun ctx =>
  ([], if ctx.abortSignal then .error "AbortError" else .ok (.vObj []))

def regAbortAware : Registry := fun t =>
  if t = "starter" then some bhvAbortAware else none

/-- A single-node graph for the cancellation counterexample. -/
def wfSingle : Workflow :=
  { id := "wf8", name := "single", starterId := "S"
    nodes := [⟨"S", "starter", []⟩]
    edges := [] }

end WorkflowAI.Cx

namespace WorkflowAI

/-! ## Projections of the run result -/

theorem finalizeRun_err (e : WorkflowExecution) (o : OutputsMap) (t : List String)
    (err : Option (String × String)) (a r : Bool) (c : Nat) :
    (finalizeRun e o t err a r c).err = err := rfl

theorem finalizeRun_trace (e : WorkflowExecution) (o : OutputsMap) (t : List String)
    (err : Option (String × String)) (a r : Bool) (c : Nat) :
    (finalizeRun e o t err a r c).trace = t := rfl

theorem finalizeRun_aborted (e : WorkflowExecution) (o : OutputsMap) (t : List String)
    (err : Option (String × String)) (a r : Bool) (c : Nat) :
    (finalizeRun e o t err a r c).aborted = a := rfl

theorem finalizeRun_ranOut (e : WorkflowExecution) (o : OutputsMap) (t : List String)
    (err : Option (String × String)) (a r : Bool) (c : Nat) :
    (finalizeRun e o t err a r c).ranOut = r := rfl

theorem finalizeRun_status (e : WorkflowExecution) (o : OutputsMap) (t : List String)
    (err : Option (String × String)) (a r : Bool) (c : Nat) :
    (finalizeRun e o t err a r c).exec.status = e.status := rfl

theorem finalizeRun_logs (e : WorkflowExecution) (o : OutputsMap) (t : List String)
    (err : Option (String × String)) (a r : Bool) (c : Nat) :
    (finalizeRun e o t err a r c).exec.logs = e.logs := rfl

theorem finalizeRun_nodeExecutions (e : WorkflowExecution) (o : OutputsMap)
    (t : List String) (err : Option (String × String)) (a r : Bool) (c : Nat) :
    (finalizeRun e o t err a r c).exec.nodeExecutions = e.nodeExecutions := rfl

theorem finalizeRun_endTime (e : WorkflowExecution) (o : OutputsMap) (t : List String)
    (err : Option (String × String)) (a r : Bool) (c : Nat) :
    (finalizeRun e o t err a r c).exec.endTime = some c := rfl

theorem finalizeRun_duration (e : WorkflowExecution) (o : OutputsMap) (t : List String)
    (err : Option (String × String)) (a r : Bool) (c : Nat) :
    (finalizeRun e o t err a r c).exec.duration = some (c - e.startTime) := rfl

/-! ## The claims -/

/-- C1: the spec claims a node never begins before all of its predecessors
are `success`. The engine's BFS walk violates this: in the graph
`S→A`, `S→C`, `A→B`, `B→C` the join node `C` executes third, before its
predecessor `B`, although the edge `B→C` exists. -/
theorem c1_join_starts_before_predecessor :
    (executeWorkflow Cx.regOK Cx.wfJoin [] none).trace = ["S", "A", "C", "B"] ∧
    (∃ e ∈ Cx.wfJoin.edges, e.source = "B" ∧ e.target = "C") := by
  constructor
  · rfl
  · decide

/-- C2: the spec claims validation rejects cycles (`CycleDetectedError`)
and dangling edges (`DanglingEdgeError`). `validateWorkflow` checks
neither: the cyclic graph `A→B→A` passes validation, both its nodes
execute, and the run ends `success`; an edge to the unknown node `Z`
also passes validation. -/
theorem c2_cycle_and_dangling_pass_validation :
    validateWorkflow Cx.wfCycle = none ∧
    (executeWorkflow Cx.regOK Cx.wfCycle [] none).trace = ["A", "B"] ∧
    (executeWorkflow Cx.regOK Cx.wfCycle [] none).exec.status = .success ∧
    validateWorkflow Cx.wfDangling = none := by
  refine ⟨rfl, rfl, rfl, rfl⟩

/-- C3, counterexample: when validation fails (starter id names no node),
a `WorkflowExecutionRecord` *is* created — the run returns a record with
status `error`, two log entries and a set `endTime` — rather than the
error being thrown to the caller with no record. -/
theorem c3_record_created_on_validation_failure :
    validateWorkflow Cx.wfNoStarter = some "Start node not found" ∧
    (executeWorkflow Cx.regOK Cx.wfNoStarter [] none).exec.status = .error ∧
    (executeWorkflow Cx.regOK Cx.wfNoStarter [] none).exec.logs.length = 2 ∧
    (executeWorkflow Cx.regOK Cx.wfNoStarter [] none).exec.endTime.isSome = true := by
  refine ⟨rfl, rfl, rfl, rfl⟩

/-- C3, amended: when pre-run validation fails, no node executes and the
failure is surfaced through the returned record — status `error` with an
error log entry — not by an exception reaching the caller. -/
theorem c3_validation_failure_aborts_run (registry : Registry) (wf : Workflow)
    (env : List (String × String)) (abortAt : Option Nat) (m : String)
    (h : validateWorkflow wf = some m) :
    (executeWorkflow registry wf env abortAt).trace = [] ∧
    (executeWorkflow registry wf env abortAt).exec.status = .error ∧
    (executeWorkflow registry wf env abortAt).exec.endTime.isSome = true ∧
    ∃ l ∈ (executeWorkflow registry wf env abortAt).exec.logs, l.level = .error := by
  refine ⟨?_, ?_, ?_, ?_⟩ <;> simp only [executeWorkflow, h]
  · rfl
  · rfl
  · rfl
  · exact Exists.imp (fun l hl => ⟨hl.1, hl.2.2⟩) (appendLog_has _ _ _ _)

/-- C3 witness: the amended statement at the concrete starterless graph. -/
theorem c3_witness :
    validateWorkflow Cx.wfNoStarter = some "Start node not found" ∧
    (executeWorkflow Cx.regOK Cx.wfNoStarter [] none).trace = [] ∧
    (executeWorkflow Cx.regOK Cx.wfNoStarter [] none).exec.status = .error := by
  have h := c3_validation_failure_aborts_run Cx.regOK Cx.wfNoStarter [] none
    "Start node not found" rfl
  exact ⟨rfl, h.1, h.2.1⟩

/-- C8: the run always resolves to a record in a terminal status with
`endTime` and `duration` set; no failure escapes as an exception (the
function is total and returns the record on every path). -/
theorem c8_terminal_record (registry : Registry) (wf : Workflow)
    (env : List (String × String)) (abortAt : Option Nat) :
    ((executeWorkflow registry wf env abortAt).exec.status = .success ∨
     (executeWorkflow registry wf env abortAt).exec.status = .error ∨
     (executeWorkflow registry wf env abortAt).exec.status = .cancelled) ∧
    (executeWorkflow registry wf env abortAt).exec.endTime.isSome = true ∧
    (executeWorkflow registry wf env abortAt).exec.duration.isSome = true := by
  cases hval : validateWorkflow wf with
  | some m =>
    simp only [executeWorkflow, hval]
    exact ⟨Or.inr (Or.inl rfl), rfl, rfl⟩
  | none =>
    cases hfind : wf.nodes.find? (fun n => n.id = wf.starterId) with
    | none =>
      simp only [executeWorkflow, hval, hfind]
      exact ⟨Or.inr (Or.inl rfl), rfl, rfl⟩
    | some startNode =>
      cases her : (runLoop registry wf env abortAt (initFuel wf) 0 [] [startNode.id]
          (startRecord wf) [] 1 []).err with
      | some em =>
        simp only [executeWorkflow, hval, hfind, her]
        exact ⟨Or.inr (Or.inl rfl), rfl, rfl⟩
      | none =>
        simp only [executeWorkflow, hval, hfind, her]
        by_cases hc : (runLoop registry wf env abortAt (initFuel wf) 0 [] [startNode.id]
            (startRecord wf) [] 1 []).exec.status = .cancelled
        · rw [if_pos hc]
          exact ⟨Or.inr (Or.inr hc), rfl, rfl⟩
        · rw [if_neg hc]
          exact ⟨Or.inl rfl, rfl, rfl⟩

/-- C9, counterexample: the wrapper's timeout failure and the engine-abort
failure are one and the same abort error (no `TimeoutError` distinct from
`CancelledError`), and a call that carries its own `init.signal` bypasses
the 30s timeout entirely. -/
theorem c9_timeout_not_distinct :
    fetchWithTimeout false none 30000 = FetchOutcome.abortError ∧
    fetchWithTimeout false none 30000 = fetchWithTimeout true none 0 ∧
    fetchWithTimeout false (some false) 1000000 = FetchOutcome.ok := by
  refine ⟨rfl, rfl, rfl⟩

/-- C9, amended: a call without a caller-supplied signal fails with the
single abort error exactly when the engine aborts or the fixed (not
per-call-configurable) 30s timeout elapses — the two causes are
indistinguishable in the produced error — and a call with its own signal
ignores both. -/
theorem c9_fixed_timeout_single_error (eng : Bool) (el : Nat) (s : Bool) :
    (fetchWithTimeout eng none el = .abortError ↔ (eng = true ∨ fetchTimeoutMs ≤ el)) ∧
    (fetchTimeoutMs ≤ el → fetchWithTimeout false none el = fetchWithTimeout true none el) ∧
    (fetchWithTimeout eng (some s) el = if s then .abortError else .ok) := by
  refine ⟨?_, ?_, rfl⟩
  · cases eng with
    | false =>
      by_cases hel : fetchTimeoutMs ≤ el
      · simp [fetchWithTimeout, hel]
      · simp [fetchWithTimeout, hel]
    | true => simp [fetchWithTimeout]
  · intro hel
    simp [fetchWithTimeout, hel]

/-- C9 witness: at 30000 ms elapsed, the non-cancelled call and the
cancelled call produce the same failure. -/
theorem c9_witness :
    fetchWithTimeout false none 30000 = fetchWithTimeout true none 30000 :=
  (c9_fixed_timeout_single_error false 30000 false).2.1 (by decide)

/-- C10: for every graph — cyclic or with multi-path joins — the loop
terminates (its fuel, the engine-supplied `initFuel`, never runs out) and
no node's behavior is invoked twice: the success trace has no duplicates,
and a node that fails was not previously run to success. -/
theorem c10_terminates_each_node_once (registry : Registry) (wf : Workflow)
    (env : List (String × String)) (abortAt : Option Nat) :
    (executeWorkflow registry wf env abortAt).ranOut = false ∧
    (executeWorkflow registry wf env abortAt).trace.Nodup ∧
    ∀ A m, (executeWorkflow registry wf env abortAt).err = some (A, m) →
      A ∉ (executeWorkflow registry wf env abortAt).trace := by
  cases hval : validateWorkflow wf with
  | some m =>
    simp only [executeWorkflow, hval]
    exact ⟨rfl, List.nodup_nil, fun A m hA => absurd hA (by simp [finalizeRun_err])⟩
  | none =>
    cases hfind : wf.nodes.find? (fun n => n.id = wf.starterId) with
    | none =>
      simp only [executeWorkflow, hval, hfind]
      exact ⟨rfl, List.nodup_nil, fun A m hA => absurd hA (by simp [finalizeRun_err])⟩
    | some startNode =>
      have hfuel := runLoop_fuel registry wf env abortAt (initFuel wf) 0 [] [startNode.id]
        (startRecord wf) [] 1 []
        (by
          show 1 + sumW wf [] < initFuel wf
          unfold initFuel
          omega)
      have hnd := runLoop_nodup registry wf env abortAt (initFuel wf) 0 [] [startNode.id]
        (startRecord wf) [] 1 []
        (fun x hx => absurd hx (List.not_mem_nil x)) List.nodup_nil
      cases her : (runLoop registry wf env abortAt (initFuel wf) 0 [] [startNode.id]
          (startRecord wf) [] 1 []).err with
      | some em =>
        simp only [executeWorkflow, hval, hfind, her]
        refine ⟨hfuel, hnd, ?_⟩
        intro A m hA
        simp only [finalizeRun_err, Option.some.injEq] at hA
        have hloop := runLoop_err registry wf env abortAt (initFuel wf) 0 []
          [startNode.id] (startRecord wf) [] 1 []
          (fun x hx => absurd hx (List.not_mem_nil x)) A m (by rw [her, hA])
        simpa only [finalizeRun_trace] using hloop.2.1
      | none =>
        simp only [executeWorkflow, hval, hfind, her]
        by_cases hc : (runLoop registry wf env abortAt (initFuel wf) 0 [] [startNode.id]
            (startRecord wf) [] 1 []).exec.status = .cancelled
        · rw [if_pos hc]
          exact ⟨hfuel, hnd, fun A m hA => absurd hA (by simp [finalizeRun_err])⟩
        · rw [if_neg hc]
          exact ⟨hfuel, hnd, fun A m hA => absurd hA (by simp [finalizeRun_err])⟩

/-- C4: a node that succeeds returning a record ends with a registry slot
that is its explicit `setOutput` writes merged with the returned record,
the returned value winning on key collision. Stated per key: the final
slot's value at `k` is the returned record's value at `k` when present,
else the value after the explicit writes. -/
theorem c4_setOutput_return_merge (registry : Registry) (wf : Workflow)
    (node : WorkflowNode) (exec : WorkflowExecution) (env : List (String × String))
    (outs : OutputsMap) (sig : Bool) (clock : Nat) (bhv : Behavior)
    (ws fields : List (String × JValue)) (k : String)
    (hreg : registry node.type = some bhv)
    (hrun : bhv (mkCtx wf node env outs sig) = (ws, .ok (.vObj fields)))
    (hnd : (fields.map Prod.fst).Nodup) :
    getAssoc ((getAssoc (executeNode registry wf node exec env outs sig clock).outs
        node.id).getD []) k
      = (getAssoc fields k).orElse
          (fun _ => getAssoc (applyWrites ((getAssoc outs node.id).getD []) ws) k) := by
  have h1 : (bhv (mkCtx wf node env outs sig)).1 = ws := by rw [hrun]
  have h2 : (bhv (mkCtx wf node env outs sig)).2 = Except.ok (JValue.vObj fields) := by
    rw [hrun]
  have hslot : ∀ (o : OutputsMap) (sl : List (String × JValue)),
      (getAssoc (setAssoc o node.id sl) node.id).getD [] = sl := by
    intro o sl
    rw [getAssoc_setAssoc]
    simp
  by_cases hw : ws.isEmpty
  · have hwe : ws = [] := by simpa using hw
    subst hwe
    simp only [executeNode, hreg, h1, h2, JValue.isRecordLike, JValue.objFields,
      List.isEmpty_nil, if_true]
    rw [hslot, getAssoc_jsMerge _ _ _ hnd]
    simp only [applyWrites, List.foldl_nil]
  · have hwf : ws.isEmpty = false := by simpa using hw
    simp only [executeNode, hreg, h1, h2, JValue.isRecordLike, JValue.objFields, hwf,
      Bool.false_eq_true, if_false, if_true]
    rw [hslot, hslot, getAssoc_jsMerge _ _ _ hnd]

/-- C4 witness: the spec's worked example — write `{a:1}` via `setOutput`,
return `{a:2, b:3}` — ends with slot `{a:2, b:3}`. -/
theorem c4_witness :
    getAssoc ((getAssoc (executeNode Cx.regC4 Cx.wfC4 Cx.nodeC4 Cx.exec0 [] [] false 0).outs
        "n1").getD []) "a" = some (JValue.vNum 2) ∧
    getAssoc ((getAssoc (executeNode Cx.regC4 Cx.wfC4 Cx.nodeC4 Cx.exec0 [] [] false 0).outs
        "n1").getD []) "b" = some (JValue.vNum 3) ∧
    (getAssoc (executeNode Cx.regC4 Cx.wfC4 Cx.nodeC4 Cx.exec0 [] [] false 0).outs "n1").getD []
      = [("a", JValue.vNum 2), ("b", JValue.vNum 3)] := by
  refine ⟨?_, ?_, rfl⟩
  · have h := c4_setOutput_return_merge Cx.regC4 Cx.wfC4 Cx.nodeC4 Cx.exec0 [] [] false 0
      Cx.bhvC4 [("a", JValue.vNum 1)] [("a", JValue.vNum 2), ("b", JValue.vNum 3)] "a"
      rfl rfl (by simp)
    exact h.trans rfl
  · have h := c4_setOutput_return_merge Cx.regC4 Cx.wfC4 Cx.nodeC4 Cx.exec0 [] [] false 0
      Cx.bhvC4 [("a", JValue.vNum 1)] [("a", JValue.vNum 2), ("b", JValue.vNum 3)] "b"
      rfl rfl (by simp)
    exact h.trans rfl

/-- C5: when a node `A` fails, the run's status is `error`, an error-level
log entry tagged with `A` is recorded, and any node only reachable through
`A` (other than `A` itself) never executes. -/
theorem c5_failure_containment (registry : Registry) (wf : Workflow)
    (env : List (String × String)) (abortAt : Option Nat) (A m : String)
    (h : (executeWorkflow registry wf env abortAt).err = some (A, m)) :
    (executeWorkflow registry wf env abortAt).exec.status = .error ∧
    (∃ l ∈ (executeWorkflow registry wf env abortAt).exec.logs,
        l.nodeId = some A ∧ l.level = .error) ∧
    ∀ x : String, x ≠ A → ¬ Reaches wf (fun u => u ≠ A) x →
      x ∉ (executeWorkflow registry wf env abortAt).trace := by
  cases hval : validateWorkflow wf with
  | some m0 =>
    simp only [executeWorkflow, hval, finalizeRun_err] at h
    exact absurd h (by simp)
  | none =>
    cases hfind : wf.nodes.find? (fun n => n.id = wf.starterId) with
    | none =>
      simp only [executeWorkflow, hval, hfind, finalizeRun_err] at h
      exact absurd h (by simp)
    | some startNode =>
      have hsid : startNode.id = wf.starterId := by
        have := List.find?_some hfind
        simpa using this
      cases her : (runLoop registry wf env abortAt (initFuel wf) 0 [] [startNode.id]
          (startRecord wf) [] 1 []).err with
      | none =>
        simp only [executeWorkflow, hval, hfind, her, finalizeRun_err] at h
        exact absurd h (by simp)
      | some em =>
        obtain ⟨A0, m0⟩ := em
        simp only [executeWorkflow, hval, hfind, her, finalizeRun_err,
          Option.some.injEq, Prod.mk.injEq] at h
        obtain ⟨hA, hm⟩ := h
        rw [hA, hm] at her
        have hloop := runLoop_err registry wf env abortAt (initFuel wf) 0 [] [startNode.id]
          (startRecord wf) [] 1 [] (fun x hx => absurd hx (List.not_mem_nil x)) A m her
        refine ⟨?_, ?_, ?_⟩
        · simp only [executeWorkflow, hval, hfind, her, finalizeRun_status, appendLog_status]
        · simp only [executeWorkflow, hval, hfind, her, finalizeRun_logs]
          obtain ⟨l, hl, hln, hlv⟩ := hloop.2.2
          exact ⟨l, mem_appendLog _ _ _ hl, hln, hlv⟩
        · intro x _ hnr hxmem
          simp only [executeWorkflow, hval, hfind, her, finalizeRun_trace] at hxmem
          have hreach := runLoop_reach registry wf env abortAt (initFuel wf) 0 []
            [startNode.id] (startRecord wf) [] 1 []
            (by
              intro q hq
              have hq1 : q = startNode.id := by simpa using hq
              subst hq1
              exact hsid ▸ Reaches.start)
            (fun y hy => absurd hy (List.not_mem_nil y)) x hxmem
          have hAnot := hloop.2.1
          refine hnr (hreach.mono ?_)
          intro u hu heq
          exact hAnot (heq ▸ hu)

/-- C5 witness: the concrete graph `S → A → B` where `A` throws: the run
errors with `A` in its error pair. -/
theorem c5_witness :
    (executeWorkflow Cx.regFail Cx.wfFail [] none).err = some ("A", "boom") ∧
    (executeWorkflow Cx.regFail Cx.wfFail [] none).exec.status = .error ∧
    "B" ∉ (executeWorkflow Cx.regFail Cx.wfFail [] none).trace := by
  have h := c5_failure_containment Cx.regFail Cx.wfFail [] none "A" "boom" rfl
  refine ⟨rfl, h.1, ?_⟩
  intro hmem
  exact absurd ((rfl :
      (executeWorkflow Cx.regFail Cx.wfFail [] none).trace = ["S"]) ▸ hmem) (by decide)

/-- C6, counterexample: cancelling during a node's in-flight call, when
the node's behavior honors the abort signal (as the agent block does, by
rethrowing the abort failure of its provider fetch), makes the run
finalize with status `error`, not `cancelled`: the single-node run with
the abort arriving during the starter's call errors with `AbortError`,
while the same run without cancellation succeeds. -/
theorem c6_cancel_during_call_errors :
    (executeWorkflow Cx.regAbortAware Cx.wfSingle [] (some 1)).err
        = some ("S", "AbortError") ∧
    (executeWorkflow Cx.regAbortAware Cx.wfSingle [] (some 1)).exec.status = .error ∧
    ¬ (executeWorkflow Cx.regAbortAware Cx.wfSingle [] (some 1)).exec.status
        = .cancelled ∧
    (executeWorkflow Cx.regAbortAware Cx.wfSingle [] none).exec.status = .success := by
  refine ⟨rfl, rfl, by decide, rfl⟩

/-- C6, amended: after cancellation is requested no node not already
running is ever started (at most `a` behaviors ran) and every
already-`success` node keeps its readable outputs in the final record;
the run finalizes with status `cancelled` when the scheduler loop itself
observes the abort — but when an in-flight behavior honors the signal by
throwing, the run finalizes `error` instead (see the counterexample). -/
theorem c6_cancellation_observed (registry : Registry) (wf : Workflow)
    (env : List (String × String)) (a : Nat) :
    (executeWorkflow registry wf env (some a)).trace.length ≤ a ∧
    (∀ x ∈ (executeWorkflow registry wf env (some a)).trace,
      ∃ ne : NodeExecution,
        getAssoc (executeWorkflow registry wf env (some a)).exec.nodeExecutions x
          = some ne ∧ ne.status = .success ∧ ne.outputs.isSome = true) ∧
    ((executeWorkflow registry wf env (some a)).aborted = true →
      (executeWorkflow registry wf env (some a)).exec.status = .cancelled) := by
  cases hval : validateWorkflow wf with
  | some m =>
    refine ⟨?_, ?_, ?_⟩
    · simp [executeWorkflow, hval, finalizeRun_trace]
    · intro x hx
      simp only [executeWorkflow, hval, finalizeRun_trace] at hx
      exact absurd hx (List.not_mem_nil x)
    · intro h
      simp only [executeWorkflow, hval, finalizeRun_aborted] at h
      exact absurd h (by decide)
  | none =>
    cases hfind : wf.nodes.find? (fun n => n.id = wf.starterId) with
    | none =>
      refine ⟨?_, ?_, ?_⟩
      · simp [executeWorkflow, hval, hfind, finalizeRun_trace]
      · intro x hx
        simp only [executeWorkflow, hval, hfind, finalizeRun_trace] at hx
        exact absurd hx (List.not_mem_nil x)
      · intro h
        simp only [executeWorkflow, hval, hfind, finalizeRun_aborted] at h
        exact absurd h (by decide)
    | some startNode =>
      have hlen := runLoop_len registry wf env a (initFuel wf) 0 [] [startNode.id]
        (startRecord wf) [] 1 []
      simp only [List.length_nil] at hlen
      have hsrgen := runLoop_success_records registry wf env (some a) (initFuel wf) 0 []
        [startNode.id] (startRecord wf) [] 1 []
        (fun y hy => absurd hy (List.not_mem_nil y))
        (fun y hy => absurd hy (List.not_mem_nil y))
      cases her : (runLoop registry wf env (some a) (initFuel wf) 0 [] [startNode.id]
          (startRecord wf) [] 1 []).err with
      | some em =>
        refine ⟨?_, ?_, ?_⟩
        · simp only [executeWorkflow, hval, hfind, her, finalizeRun_trace]
          omega
        · intro x hx
          simp only [executeWorkflow, hval, hfind, her, finalizeRun_trace] at hx
          simp only [executeWorkflow, hval, hfind, her]
          obtain ⟨ne, hget, hst, hout⟩ := hsrgen x hx
          refine ⟨ne, ?_, hst, hout⟩
          rw [finalizeRun_nodeExecutions, appendLog_nodeExecutions]
          exact hget
        · intro h
          simp only [executeWorkflow, hval, hfind, her, finalizeRun_aborted] at h
          have hno := (runLoop_aborted_spec registry wf env (some a) (initFuel wf) 0 []
            [startNode.id] (startRecord wf) [] 1 [] h).2
          rw [her] at hno
          exact absurd hno (by simp)
      | none =>
        refine ⟨?_, ?_, ?_⟩
        · simp only [executeWorkflow, hval, hfind, her, finalizeRun_trace]
          omega
        · intro x hx
          simp only [executeWorkflow, hval, hfind, her, finalizeRun_trace] at hx
          simp only [executeWorkflow, hval, hfind, her]
          obtain ⟨ne, hget, hst, hout⟩ := hsrgen x hx
          by_cases hc : (runLoop registry wf env (some a) (initFuel wf) 0 []
              [startNode.id] (startRecord wf) [] 1 []).exec.status = .cancelled
          · rw [if_pos hc]
            refine ⟨ne, ?_, hst, hout⟩
            rw [finalizeRun_nodeExecutions]
            exact hget
          · rw [if_neg hc]
            refine ⟨ne, ?_, hst, hout⟩
            rw [finalizeRun_nodeExecutions, appendLog_nodeExecutions]
            exact hget
        · intro h
          simp only [executeWorkflow, hval, hfind, her, finalizeRun_aborted] at h
          obtain ⟨hstat, _⟩ := runLoop_aborted_spec registry wf env (some a) (initFuel wf)
            0 [] [startNode.id] (startRecord wf) [] 1 [] h
          simp only [executeWorkflow, hval, hfind, her]
          rw [if_pos hstat, finalizeRun_status]
          exact hstat

/-- C6 witness: cancelling the `wfJoin` run (whose behaviors ignore the
signal) after one iteration: the loop observes the abort, the record is
`cancelled`, and at most one node ran. -/
theorem c6_amended_witness :
    (executeWorkflow Cx.regOK Cx.wfJoin [] (some 1)).aborted = true ∧
    (executeWorkflow Cx.regOK Cx.wfJoin [] (some 1)).exec.status = .cancelled ∧
    (executeWorkflow Cx.regOK Cx.wfJoin [] (some 1)).trace.length ≤ 1 := by
  have h := c6_cancellation_observed Cx.regOK Cx.wfJoin [] 1
  exact ⟨rfl, h.2.2 rfl, h.1⟩

/-- C7, counterexample: a node returning the plain string `"hello"` stores
it under `value` in its node record, but the value is *not* propagated to
the registry: the node has no registry slot, so a later
`getOutput("N", "value")` yields nothing, not `"hello"`. -/
theorem c7_nonrecord_not_in_registry :
    getNodeOutputFn (executeWorkflow Cx.regStr Cx.wfStr [] none).outs "N" "value" = none ∧
    ((getAssoc (executeWorkflow Cx.regStr Cx.wfStr [] none).exec.nodeExecutions "N").bind
        (fun ne => ne.outputs)) = some [("value", JValue.vStr "hello")] ∧
    (executeWorkflow Cx.regStr Cx.wfStr [] none).trace = ["S", "N"] := by
  refine ⟨rfl, rfl, rfl⟩

/-- C7, amended: a non-record result is stored under the reserved `value`
key in the node's execution-record outputs, but the Output Registry slot
keeps only the node's explicit writes — the returned value is not readable
through `getOutput`. -/
theorem c7_nonrecord_under_value (registry : Registry) (wf : Workflow)
    (node : WorkflowNode) (exec : WorkflowExecution) (env : List (String × String))
    (outs : OutputsMap) (sig : Bool) (clock : Nat) (bhv : Behavior)
    (ws : List (String × JValue)) (v : JValue)
    (hreg : registry node.type = some bhv)
    (hrun : bhv (mkCtx wf node env outs sig) = (ws, .ok v))
    (hv : v.isRecordLike = false) :
    (∃ ne : NodeExecution,
        getAssoc (executeNode registry wf node exec env outs sig clock).exec.nodeExecutions
          node.id = some ne ∧ ne.status = .success ∧
        ne.outputs.bind (fun o => getAssoc o "value") = some v) ∧
    (executeNode registry wf node exec env outs sig clock).outs =
      (if ws.isEmpty then outs
       else setAssoc outs node.id (applyWrites ((getAssoc outs node.id).getD []) ws)) := by
  have h1 : (bhv (mkCtx wf node env outs sig)).1 = ws := by rw [hrun]
  have h2 : (bhv (mkCtx wf node env outs sig)).2 = Except.ok v := by rw [hrun]
  have hset : ∀ (mm : List (String × NodeExecution)) (ne : NodeExecution),
      getAssoc (setAssoc mm node.id ne) node.id = some ne := by
    intro mm ne
    rw [getAssoc_setAssoc]
    simp
  have hvalkey : ∀ (slot : List (String × JValue)),
      getAssoc (jsMerge slot [("value", v)]) "value" = some v := by
    intro slot
    show getAssoc (setAssoc slot "value" v) "value" = some v
    rw [getAssoc_setAssoc]
    simp
  by_cases hst : node.type = "starter"
  · simp only [executeNode, hreg, h1, h2, hv, Bool.false_eq_true, if_false]
    rw [if_pos hst, if_pos hst]
    exact ⟨⟨_, hset _ _, rfl, hvalkey _⟩, by trivial⟩
  · simp only [executeNode, hreg, h1, h2, hv, Bool.false_eq_true, if_false]
    rw [if_neg hst, if_neg hst]
    simp only [appendLog_nodeExecutions]
    exact ⟨⟨_, hset _ _, rfl, hvalkey _⟩, by trivial⟩

/-- C7 witness: the amended statement at the concrete string-returning
node: the record outputs carry `value ↦ "hello"`, the registry stays
empty. -/
theorem c7_witness :
    (executeNode Cx.regStr Cx.wfStr (WorkflowNode.mk "N" "str" []) Cx.exec0 [] [] false 0).outs
        = ([] : OutputsMap) ∧
    ∃ ne : NodeExecution,
      getAssoc (executeNode Cx.regStr Cx.wfStr (WorkflowNode.mk "N" "str" []) Cx.exec0
          [] [] false 0).exec.nodeExecutions "N" = some ne ∧ ne.status = .success ∧
      ne.outputs.bind (fun o => getAssoc o "value") = some (JValue.vStr "hello") := by
  have h := c7_nonrecord_under_value Cx.regStr Cx.wfStr (WorkflowNode.mk "N" "str" [])
    Cx.exec0 [] [] false 0 (fun _ => ([], .ok (.vStr "hello"))) [] (JValue.vStr "hello")
    rfl rfl rfl
  exact ⟨h.2.trans rfl, h.1⟩

/-- C10 witness: on the failing graph, the at-most-once guarantees hold and
the failing node `A` is not among the successfully executed nodes. -/
theorem c10_witness :
    (executeWorkflow Cx.regFail Cx.wfFail [] none).err = some ("A", "boom") ∧
    (executeWorkflow Cx.regFail Cx.wfFail [] none).ranOut = false ∧
    "A" ∉ (executeWorkflow Cx.regFail Cx.wfFail [] none).trace := by
  have h := c10_terminates_each_node_once Cx.regFail Cx.wfFail [] none
  exact ⟨rfl, h.1, h.2.2 "A" "boom" rfl⟩

end WorkflowAI
